import Mathlib

/-!
# Verification of the gradebook / test-analysis aggregation logic

Shallow embedding of the aggregation functions of the repository
(`Гиниятуллина_практика1.py` and `Гиниятуллина_практика3.py`) over exact
rational arithmetic.  A record table is a list of rows; each row pairs a
student identifier with the list of its value-bearing (subject / question)
column values, in column order.  numpy/pandas `.round(k)` is modelled as
round-half-to-even at `k` decimal places.  pandas `sort_values` is called
by the source with its default `kind='quicksort'` (numpy introsort), whose
order on equal keys is unspecified — pandas documents only
`mergesort`/`stable` as stable kinds.  The executable embedding therefore
uses a concrete insertion sort only for the claims that are independent of
the tie order, and the relation `sortValuesDesc` captures exactly what the
library call guarantees: some permutation of the table ordered by the key.
-/

namespace EduProj

/-- Round a rational to the nearest integer, ties to the nearest even
integer; this is the rounding mode of numpy/pandas `.round`. -/
def roundHalfEven (q : ℚ) : ℤ :=
  if q - ⌊q⌋ < 1/2 then ⌊q⌋
  else if (1:ℚ)/2 < q - ⌊q⌋ then ⌊q⌋ + 1
  else if ⌊q⌋ % 2 = 0 then ⌊q⌋ else ⌊q⌋ + 1

/-- Embedding of `.round(2)`: round to 2 decimal places, ties to even. -/
def round2 (q : ℚ) : ℚ := (roundHalfEven (q * 100) : ℚ) / 100

/-- Embedding of `.round(1)`: round to 1 decimal place, ties to even. -/
def round1 (q : ℚ) : ℚ := (roundHalfEven (q * 10) : ℚ) / 10

/-- Arithmetic mean of a list of rationals (`Series.mean`); `0` on `[]`. -/
def mean (xs : List ℚ) : ℚ := xs.sum / xs.length

/-- One row of the gradebook table: the identifier column `Ученик` and the
values of the subject columns, in column order. -/
structure Row where
  uchenik : String
  scores : List ℚ
deriving DecidableEq, Repr

/-- A gradebook row augmented by `calculate_statistics` with the derived
fields `Средний_балл` (`avg`) and `Статус` (`status`). -/
structure ARow where
  uchenik : String
  scores : List ℚ
  avg : ℚ
  status : String
deriving DecidableEq, Repr

/-- Embedding of the inner `get_status` of `calculate_statistics`:
the 4-bucket threshold classifier for a student's average. -/
def get_status (avg : ℚ) : String :=
  if avg ≥ 4.5 then "Отличник"
  else if avg ≥ 3.5 then "Хорошист"
  else if avg ≥ 2.5 then "Троечник"
  else "Требует внимания"

/-- Embedding of `calculate_statistics`: add to every row its mean over the
subject columns rounded to 2 decimals (`Средний_балл`) and the status bucket
obtained from that rounded mean (`Статус`). -/
def calculate_statistics (df : List Row) : List ARow :=
  df.map fun r =>
    let avg := round2 (mean r.scores)
    ⟨r.uchenik, r.scores, avg, get_status avg⟩

/-- Ordering of augmented rows by descending derived mean (non-strict). -/
def avgGE (a b : ARow) : Prop := b.avg ≤ a.avg

instance : DecidableRel avgGE := fun a b => inferInstanceAs (Decidable (b.avg ≤ a.avg))

instance : IsTotal ARow avgGE := ⟨fun a b => le_total b.avg a.avg⟩

instance : IsTrans ARow avgGE := ⟨fun _ _ _ h₁ h₂ => le_trans h₂ h₁⟩

/-- Ordering of augmented rows by ascending derived mean (non-strict). -/
def avgLE (a b : ARow) : Prop := a.avg ≤ b.avg

instance : DecidableRel avgLE := fun a b => inferInstanceAs (Decidable (a.avg ≤ b.avg))

instance : IsTotal ARow avgLE := ⟨fun a b => le_total a.avg b.avg⟩

instance : IsTrans ARow avgLE := ⟨fun _ _ _ h₁ h₂ => le_trans h₁ h₂⟩

/-- Embedding of `get_top_students`: sort by `Средний_балл` descending and
keep the first `n` rows.  The source's `sort_values` uses the default
`kind='quicksort'`, whose tie order is unspecified; the insertion sort here
is one concrete realization of that call, and only properties independent
of the tie order are claimed of this function (the tie-order contract of
the call itself is the relation `sortValuesDesc`). -/
def get_top_students (df : List ARow) (n : ℕ) : List ARow :=
  (List.insertionSort avgGE df).take n

/-- Embedding of `get_struggling_students`: keep the rows with
`Средний_балл < 3.5` and sort them by `Средний_балл` ascending.  As in
`get_top_students`, the source's sort kind leaves the tie order
unspecified; the insertion sort is one concrete realization and only
tie-order-independent properties are claimed of it. -/
def get_struggling_students (df : List ARow) : List ARow :=
  List.insertionSort avgLE (df.filter fun r => decide (r.avg < 3.5))

/-- Contract of `df.sort_values('Средний_балл', ascending=False)` with the
source's default (unspecified-tie-order) sort kind: the call returns some
permutation of the table that is descending in the derived mean, with no
guarantee about the relative order of rows with equal derived mean. -/
def sortValuesDesc (df s : List ARow) : Prop := s.Perm df ∧ s.Sorted avgGE

/-- Mean of a series as pandas computes it: `NaN` (here `none`) on an empty
series, the arithmetic mean otherwise. -/
def omean (xs : List ℚ) : Option ℚ :=
  if xs.isEmpty then none else some (mean xs)

/-- Median of a series as pandas computes it: `none` on an empty series,
otherwise the middle of the sorted values (mean of the two middles for an
even count). -/
def omedian (xs : List ℚ) : Option ℚ :=
  if xs.isEmpty then none
  else
    let s := List.insertionSort (· ≤ ·) xs
    let n := xs.length
    if n % 2 = 1 then some (s.getD (n / 2) 0)
    else some ((s.getD (n / 2 - 1) 0 + s.getD (n / 2) 0) / 2)

/-- Derived means column of an augmented table (`df['Средний_балл']`). -/
def avgs (df : List ARow) : List ℚ := df.map ARow.avg

/-- The `j`-th subject column of an augmented table (missing entries of a
ragged row read as `0`; on a well-formed table every row has the entry). -/
def column (df : List ARow) (j : ℕ) : List ℚ := df.map fun r => r.scores.getD j 0

/-- The `stats` dictionary built by `get_class_statistics`, except for the
key `'class_std'`, which is real-valued and is modelled by the separate
function `class_std` below. -/
structure ClassStats where
  total_students : ℕ
  class_average : Option ℚ
  class_median : Option ℚ
  class_min : Option ℚ
  class_max : Option ℚ
  excellent : ℕ
  good : ℕ
  satisfactory : ℕ
  attention_needed : ℕ
deriving DecidableEq, Repr

/-- One entry of the `subject_stats` dictionary of `get_class_statistics`. -/
structure SubjectStat where
  smean : Option ℚ
  smin : Option ℚ
  smax : Option ℚ
deriving DecidableEq, Repr

/-- Embedding of the `stats` dictionary of `get_class_statistics` (all keys
except the real-valued `'class_std'`, see `class_std`). -/
def get_class_statistics (df : List ARow) : ClassStats :=
  { total_students := df.length
    class_average := (omean (avgs df)).map round2
    class_median := (omedian (avgs df)).map round2
    class_min := (avgs df).min?
    class_max := (avgs df).max?
    excellent := (df.filter fun r => decide (r.status = "Отличник")).length
    good := (df.filter fun r => decide (r.status = "Хорошист")).length
    satisfactory := (df.filter fun r => decide (r.status = "Троечник")).length
    attention_needed := (df.filter fun r => decide (r.status = "Требует внимания")).length }

/-- Embedding of the `subject_stats` dictionary of `get_class_statistics`
for a table whose rows have `ncols` subject columns: per column the mean
rounded to 2 decimals, the minimum and the maximum. -/
def subject_stats (df : List ARow) (ncols : ℕ) : List SubjectStat :=
  (List.range ncols).map fun j =>
    ⟨(omean (column df j)).map round2, (column df j).min?, (column df j).max?⟩

/-- Sum of the squared deviations of the list's entries from its mean. -/
def sqDevSum (xs : List ℚ) : ℚ := (xs.map fun x => (x - mean xs) ^ 2).sum

/-- Rounding-half-to-even of a real number, matching `roundHalfEven`. -/
noncomputable def roundHalfEvenR (x : ℝ) : ℤ :=
  if x - ⌊x⌋ < 1/2 then ⌊x⌋
  else if (1:ℝ)/2 < x - ⌊x⌋ then ⌊x⌋ + 1
  else if ⌊x⌋ % 2 = 0 then ⌊x⌋ else ⌊x⌋ + 1

/-- Round a real to 2 decimal places, ties to even. -/
noncomputable def round2R (x : ℝ) : ℝ := (roundHalfEvenR (x * 100) : ℝ) / 100

/-- The `'class_std'` entry of the `stats` dictionary of
`get_class_statistics`: the sample (n-1) standard deviation of the derived
means rounded to 2 decimals (pandas `Series.std`), which is `NaN` (here
`none`) for fewer than two rows. -/
noncomputable def class_std (xs : List ℚ) : Option ℝ :=
  if xs.length ≤ 1 then none
  else some (round2R (Real.sqrt ((sqDevSum xs : ℝ) / ((xs.length : ℝ) - 1))))

/-- One row of the test-results table of the test-analysis pipeline: the
identifier column `Ученик` and the values of the question columns
(`Задание_1`, `Задание_2`, ...), in column order. -/
structure TRow where
  uchenik : String
  answers : List ℚ
deriving DecidableEq, Repr

/-- One row of the `test_info_df` table: a question name, its topic and its
difficulty label. -/
structure QInfo where
  zadanie : String
  tema : String
  slozhnost : String
deriving DecidableEq, Repr

/-- A test-results row augmented by `analyze_test_results` with the derived
fields `Общий_балл` (`total`) and `Процент` (`procent`). -/
structure SRow where
  uchenik : String
  answers : List ℚ
  total : ℚ
  procent : ℚ
deriving DecidableEq, Repr

/-- One row of the `question_stats_df` table built by
`analyze_test_results`; `procent` models `Процент_правильных`, which is
`NaN` (here `none`) on a table with no rows. -/
structure QStat where
  zadanie : String
  tema : String
  slozhnost : String
  pravilnyh : ℚ
  procent : Option ℚ
  problemnoe : String
deriving DecidableEq, Repr

/-- One row of the `topic_stats` table built by `analyze_test_results`. -/
structure TopicStat where
  tema : String
  procent : Option ℚ
  problemnaya : String
deriving DecidableEq, Repr

/-- Lookup of a question's row in `test_info_df`
(`test_info_df[test_info_df['Задание'] == col]...values[0]`); the source
raises on a question absent from the table, the model returns a row with
empty topic and difficulty, never reached on well-formed inputs. -/
def lookupInfo (info : List QInfo) (q : String) : QInfo :=
  (info.find? fun i => decide (i.zadanie = q)).getD ⟨q, "", ""⟩

/-- Sum of the `j`-th question column over all rows
(`results_df[col].sum()`; missing entries of a ragged row read as `0`). -/
def colSum (rows : List TRow) (j : ℕ) : ℚ :=
  (rows.map fun r => r.answers.getD j 0).sum

/-- The value `(correct / total * 100).round(1)` of `analyze_test_results`
for the `j`-th question column: `NaN` (here `none`) on a table with zero
rows, otherwise the percentage rounded to 1 decimal place. -/
def qpercentage (rows : List TRow) (j : ℕ) : Option ℚ :=
  if rows.length = 0 then none else some (round1 (colSum rows j / rows.length * 100))

/-- The `question_stats` entry that `analyze_test_results` builds for the
`j`-th question column, named `qname`: the column sum (`Правильных_ответов`),
the share of correct answers in percent rounded to 1 decimal
(`Процент_правильных`, `NaN` on zero rows), and the problematic flag
(`'Да'` exactly when the percentage is strictly below 60; the `NaN` of an
empty table compares as not below 60). -/
def question_stat (info : List QInfo) (rows : List TRow) (qname : String) (j : ℕ) : QStat :=
  { zadanie := qname
    tema := (lookupInfo info qname).tema
    slozhnost := (lookupInfo info qname).slozhnost
    pravilnyh := colSum rows j
    procent := qpercentage rows j
    problemnoe :=
      match qpercentage rows j with
      | none => "Нет"
      | some p => if p < 60 then "Да" else "Нет" }

/-- Embedding of the per-question loop of `analyze_test_results`: one
`QStat` per question column, in column order. -/
def question_stats (info : List QInfo) (qnames : List String) (rows : List TRow) : List QStat :=
  (List.range qnames.length).map fun j => question_stat info rows (qnames.getD j "") j

/-- Embedding of the per-student part of `analyze_test_results`: add to
every row `Общий_балл` (the sum of its answers over the `qn` question
columns) and `Процент` (that sum over the question count, in percent,
rounded to 1 decimal). -/
def student_results (qn : ℕ) (rows : List TRow) : List SRow :=
  rows.map fun r =>
    let total := r.answers.sum
    ⟨r.uchenik, r.answers, total, round1 (total / qn * 100)⟩

/-- The topic-rollup entry of `analyze_test_results` for topic `t`:
the mean of the `Процент_правильных` values of the questions of that topic
(pandas `groupby('Тема').agg('mean')` skips `NaN` values and is `NaN` when
none remain), rounded to 1 decimal, and the problematic-topic flag
(`'Да'` exactly when that mean is strictly below 60). -/
def topic_stat (qs : List QStat) (t : String) : TopicStat :=
  let ps := (qs.filter fun q => decide (q.tema = t)).filterMap QStat.procent
  let m : Option ℚ := if ps.isEmpty then none else some (round1 (mean ps))
  { tema := t
    procent := m
    problemnaya :=
      match m with
      | none => "Нет"
      | some p => if p < 60 then "Да" else "Нет" }

/-- Embedding of the topic rollup of `analyze_test_results`: one
`TopicStat` per distinct topic of the question-statistics table (pandas
`groupby` enumerates each key once; the claims do not depend on the key
order, the model enumerates them with `dedup`). -/
def topic_stats (qs : List QStat) : List TopicStat :=
  ((qs.map QStat.tema).dedup).map (topic_stat qs)

/-- Embedding of `analyze_test_results`: the augmented student table, the
per-question statistics table and the per-topic rollup, for a results table
with question columns `qnames` and question-information table `info`. -/
def analyze_test_results (qnames : List String) (rows : List TRow) (info : List QInfo) :
    List SRow × List QStat × List TopicStat :=
  (student_results qnames.length rows,
   question_stats info qnames rows,
   topic_stats (question_stats info qnames rows))

/-! ## Helper lemmas -/

/-- Default augmented row used as the `getD` fallback in the statements. -/
def dummyA : ARow := ⟨"", [], 0, ""⟩

/-- Default raw row used as the `getD` fallback in the statements. -/
def dummyR : Row := ⟨"", []⟩

theorem calculate_statistics_getD (df : List Row) (i : ℕ) (h : i < df.length) :
    (calculate_statistics df).getD i dummyA =
      ⟨(df.getD i dummyR).uchenik, (df.getD i dummyR).scores,
        round2 (mean (df.getD i dummyR).scores),
        get_status (round2 (mean (df.getD i dummyR).scores))⟩ := by
  unfold calculate_statistics
  rw [List.getD_eq_getElem?_getD, List.getElem?_map, List.getElem?_eq_getElem h,
    List.getD_eq_getElem?_getD, List.getElem?_eq_getElem h]
  rfl

theorem get_status_iff (q : ℚ) :
    (get_status q = "Отличник" ↔ 4.5 ≤ q)
    ∧ (get_status q = "Хорошист" ↔ 3.5 ≤ q ∧ q < 4.5)
    ∧ (get_status q = "Троечник" ↔ 2.5 ≤ q ∧ q < 3.5)
    ∧ (get_status q = "Требует внимания" ↔ q < 2.5) := by
  unfold get_status
  split_ifs with h1 h2 h3 <;>
    refine ⟨?_, ?_, ?_, ?_⟩ <;>
    constructor <;>
    intro hx <;>
    first
      | rfl
      | exact absurd hx (by decide)
      | linarith
      | (obtain ⟨hx1, hx2⟩ := hx; linarith)
      | exact ⟨by linarith, by linarith⟩

theorem get_status_mem (q : ℚ) :
    get_status q = "Отличник" ∨ get_status q = "Хорошист"
    ∨ get_status q = "Троечник" ∨ get_status q = "Требует внимания" := by
  unfold get_status
  split_ifs <;> simp

theorem counts_partition (adf : List ARow)
    (hst : ∀ r ∈ adf, r.status = "Отличник" ∨ r.status = "Хорошист"
      ∨ r.status = "Троечник" ∨ r.status = "Требует внимания") :
    (adf.filter fun r => decide (r.status = "Отличник")).length
    + (adf.filter fun r => decide (r.status = "Хорошист")).length
    + (adf.filter fun r => decide (r.status = "Троечник")).length
    + (adf.filter fun r => decide (r.status = "Требует внимания")).length
    = adf.length := by
  induction adf with
  | nil => simp
  | cons a l ih =>
    have ha := hst a (List.mem_cons_self a l)
    have hl := ih fun r hr => hst r (List.mem_cons_of_mem a hr)
    simp only [List.filter_cons]
    rcases ha with h | h | h | h <;> rw [h] <;> simp <;> omega

/-! ## Claims -/

/-- C1: for every row, `calculate_statistics` sets `Средний_балл` to the
mean of the row's subject values rounded to 2 decimal places and `Статус`
to the bucket of that derived mean from the ordered threshold table;
the four buckets are mutually exclusive and exhaustive over all rational
means, with boundary values belonging to the higher bucket. -/
theorem c1_row_mean_and_status (df : List Row) (i : ℕ) (h : i < df.length) :
    (((calculate_statistics df).getD i dummyA).avg
        = round2 (mean (df.getD i dummyR).scores))
    ∧ (((calculate_statistics df).getD i dummyA).status
        = get_status (((calculate_statistics df).getD i dummyA).avg))
    ∧ (∀ q : ℚ,
        (get_status q = "Отличник" ↔ 4.5 ≤ q)
        ∧ (get_status q = "Хорошист" ↔ 3.5 ≤ q ∧ q < 4.5)
        ∧ (get_status q = "Троечник" ↔ 2.5 ≤ q ∧ q < 3.5)
        ∧ (get_status q = "Требует внимания" ↔ q < 2.5)) := by
  rw [calculate_statistics_getD df i h]
  exact ⟨rfl, rfl, get_status_iff⟩

/-- Witness for C1 on the concrete one-row table `[("a", [4, 5, 5])]`. -/
theorem c1_row_mean_and_status_witness :
    (((calculate_statistics [⟨"a", [4, 5, 5]⟩]).getD 0 dummyA).avg
        = round2 (mean (([⟨"a", [4, 5, 5]⟩] : List Row).getD 0 dummyR).scores))
    ∧ (((calculate_statistics [⟨"a", [4, 5, 5]⟩]).getD 0 dummyA).status
        = get_status (((calculate_statistics [⟨"a", [4, 5, 5]⟩]).getD 0 dummyA).avg))
    ∧ (∀ q : ℚ,
        (get_status q = "Отличник" ↔ 4.5 ≤ q)
        ∧ (get_status q = "Хорошист" ↔ 3.5 ≤ q ∧ q < 4.5)
        ∧ (get_status q = "Троечник" ↔ 2.5 ≤ q ∧ q < 3.5)
        ∧ (get_status q = "Требует внимания" ↔ q < 2.5)) :=
  c1_row_mean_and_status [⟨"a", [4, 5, 5]⟩] 0 (by decide)

/-- C3: the row aggregator only adds the derived fields, preserving every
original column value and the row order (forgetting the derived fields of
its output recovers the input table exactly), and the two ranking queries
only return rows of the underlying table, which they do not modify. -/
theorem c3_frame_effects (df : List Row) (adf : List ARow) (n : ℕ) :
    ((calculate_statistics df).map (fun r => Row.mk r.uchenik r.scores) = df)
    ∧ (∀ x ∈ get_top_students adf n, x ∈ adf)
    ∧ (∀ x ∈ get_struggling_students adf, x ∈ adf) := by
  refine ⟨?_, ?_, ?_⟩
  · unfold calculate_statistics
    rw [List.map_map]
    exact List.map_id df
  · intro x hx
    exact (List.mem_insertionSort avgGE).mp (List.take_subset n _ hx)
  · intro x hx
    exact List.mem_of_mem_filter ((List.mem_insertionSort avgLE).mp hx)

/-- C7: on an empty record table every aggregate statistic reports as
undefined (`none`, the model of `NaN`) instead of raising — the class-wide
aggregates, the sample standard deviation, every per-column statistic and
every per-question pass-rate — and both ranking queries return the empty
result. -/
theorem c7_empty_table (n ncols : ℕ) (info : List QInfo) (qnames : List String) :
    get_class_statistics [] = ⟨0, none, none, none, none, 0, 0, 0, 0⟩
    ∧ class_std (avgs []) = none
    ∧ subject_stats [] ncols = List.replicate ncols ⟨none, none, none⟩
    ∧ get_top_students [] n = []
    ∧ get_struggling_students [] = []
    ∧ (question_stats info qnames []).map QStat.procent
        = List.replicate qnames.length none := by
  refine ⟨rfl, rfl, ?_, by simp [get_top_students, List.insertionSort], rfl, ?_⟩
  · unfold subject_stats column omean
    simp [List.map_const']
  · refine List.eq_replicate_iff.mpr ⟨by simp [question_stats], ?_⟩
    intro b hb
    obtain ⟨st, hst, rfl⟩ := List.mem_map.mp hb
    obtain ⟨j, _, rfl⟩ := List.mem_map.mp hst
    rfl

/-- C9: the aggregation pipeline is deterministic — on identical inputs
(the record tables, question columns and question-information tables agree)
all derived statistics of the three aggregation functions agree. -/
theorem c9_deterministic (df₁ df₂ : List Row) (adf₁ adf₂ : List ARow) (ncols : ℕ)
    (qnames₁ qnames₂ : List String) (rows₁ rows₂ : List TRow) (info₁ info₂ : List QInfo)
    (hdf : df₁ = df₂) (hadf : adf₁ = adf₂) (hq : qnames₁ = qnames₂)
    (hr : rows₁ = rows₂) (hi : info₁ = info₂) :
    calculate_statistics df₁ = calculate_statistics df₂
    ∧ get_class_statistics adf₁ = get_class_statistics adf₂
    ∧ subject_stats adf₁ ncols = subject_stats adf₂ ncols
    ∧ class_std (avgs adf₁) = class_std (avgs adf₂)
    ∧ analyze_test_results qnames₁ rows₁ info₁ = analyze_test_results qnames₂ rows₂ info₂ := by
  subst hdf hadf hq hr hi
  exact ⟨rfl, rfl, rfl, rfl, rfl⟩

/-- Witness for C9 on concrete identical inputs. -/
theorem c9_deterministic_witness :
    calculate_statistics [⟨"a", [4]⟩] = calculate_statistics [⟨"a", [4]⟩]
    ∧ get_class_statistics [dummyA] = get_class_statistics [dummyA]
    ∧ subject_stats [dummyA] 1 = subject_stats [dummyA] 1
    ∧ class_std (avgs [dummyA]) = class_std (avgs [dummyA])
    ∧ analyze_test_results ["q1"] [⟨"a", [1]⟩] [⟨"q1", "t", "e"⟩]
        = analyze_test_results ["q1"] [⟨"a", [1]⟩] [⟨"q1", "t", "e"⟩] :=
  c9_deterministic [⟨"a", [4]⟩] [⟨"a", [4]⟩] [dummyA] [dummyA] 1 ["q1"] ["q1"]
    [⟨"a", [1]⟩] [⟨"a", [1]⟩] [⟨"q1", "t", "e"⟩] [⟨"q1", "t", "e"⟩] rfl rfl rfl rfl rfl

/-- Default question-statistics row used as the `getD` fallback. -/
def dummyQ : QStat := ⟨"", "", "", 0, none, ""⟩

theorem question_stats_getD (info : List QInfo) (qnames : List String)
    (rows : List TRow) (j : ℕ) (hj : j < qnames.length) :
    (question_stats info qnames rows).getD j dummyQ
      = question_stat info rows (qnames.getD j "") j := by
  unfold question_stats
  rw [List.getD_eq_getElem?_getD, List.getElem?_map, List.getElem?_range hj]
  rfl

theorem colSum_eq_count (rows : List TRow) (j : ℕ)
    (hbin : ∀ r ∈ rows, ∀ a ∈ r.answers, a = 0 ∨ a = 1) :
    colSum rows j
      = ((rows.filter fun r => decide (r.answers.getD j 0 = 1)).length : ℚ) := by
  induction rows with
  | nil => simp [colSum]
  | cons r l ih =>
    have hr : r.answers.getD j 0 = 0 ∨ r.answers.getD j 0 = 1 := by
      by_cases hjr : j < r.answers.length
      · exact hbin r (List.mem_cons_self r l) _
          (by rw [List.getD_eq_getElem r.answers 0 hjr]; exact List.getElem_mem hjr)
      · left
        rw [List.getD_eq_default]
        omega
    have ihl := ih fun s hs => hbin s (List.mem_cons_of_mem r hs)
    unfold colSum at ihl ⊢
    rcases hr with h | h
    · rw [List.filter_cons]
      simp only [h, decide_eq_true_eq]
      rw [if_neg (by norm_num : ¬ ((0 : ℚ) = 1))]
      simp only [List.map_cons, List.sum_cons, h, ihl, zero_add]
    · rw [List.filter_cons]
      simp only [h, decide_eq_true_eq]
      rw [if_pos trivial]
      simp only [List.map_cons, List.sum_cons, h, ihl, List.length_cons]
      push_cast
      ring

theorem filterMap_of_map_eq_map_some {α β : Type} (f : α → Option β) :
    ∀ (l : List α) (ps : List β), l.map f = ps.map some → l.filterMap f = ps
  | [], [], _ => rfl
  | [], _ :: _, h => by simp at h
  | _ :: _, [], h => by simp at h
  | a :: l, p :: ps, h => by
    simp only [List.map_cons, List.cons.injEq] at h
    simp [List.filterMap_cons, h.1, filterMap_of_map_eq_map_some f l ps h.2]

theorem qpercentage_of_ne_nil (rows : List TRow) (j : ℕ) (h : rows.length ≠ 0) :
    qpercentage rows j = some (round1 (colSum rows j / rows.length * 100)) := by
  unfold qpercentage
  rw [if_neg h]

theorem question_stat_of_ne_nil (info : List QInfo) (rows : List TRow)
    (qname : String) (j : ℕ) (h : rows.length ≠ 0) :
    question_stat info rows qname j =
      ⟨qname, (lookupInfo info qname).tema, (lookupInfo info qname).slozhnost,
        colSum rows j,
        some (round1 (colSum rows j / rows.length * 100)),
        if round1 (colSum rows j / rows.length * 100) < 60 then "Да" else "Нет"⟩ := by
  unfold question_stat
  rw [qpercentage_of_ne_nil rows j h]

/-- C5: on a non-empty binary-scored results table,
`analyze_test_results` reports for every question column the pass-rate
`Процент_правильных` as the percentage of rows whose value equals the
correct sentinel `1`, rounded to 1 decimal place, and flags the question
`Проблемное = 'Да'` exactly when that percentage is strictly below 60,
so that a pass-rate of exactly 60 is classified not problematic. -/
theorem c5_question_pass_rate (info : List QInfo) (qnames : List String)
    (rows : List TRow) (j : ℕ) (hj : j < qnames.length) (hrows : rows ≠ [])
    (hbin : ∀ r ∈ rows, ∀ a ∈ r.answers, a = 0 ∨ a = 1) :
    (((question_stats info qnames rows).getD j dummyQ).procent
        = some (round1
            (((rows.filter fun r => decide (r.answers.getD j 0 = 1)).length : ℚ)
              / rows.length * 100)))
    ∧ (((question_stats info qnames rows).getD j dummyQ).problemnoe = "Да"
        ↔ ∃ p, ((question_stats info qnames rows).getD j dummyQ).procent = some p ∧ p < 60)
    ∧ (((question_stats info qnames rows).getD j dummyQ).procent = some 60
        → ((question_stats info qnames rows).getD j dummyQ).problemnoe = "Нет") := by
  have hlen : rows.length ≠ 0 := fun h => hrows (List.eq_nil_of_length_eq_zero h)
  rw [question_stats_getD info qnames rows j hj,
    question_stat_of_ne_nil info rows (qnames.getD j "") j hlen,
    colSum_eq_count rows j hbin]
  refine ⟨rfl, ?_, ?_⟩ <;> dsimp only
  · split_ifs with hlt
    · exact ⟨fun _ => ⟨_, rfl, hlt⟩, fun _ => rfl⟩
    · constructor
      · intro hx
        exact absurd hx (by decide)
      · rintro ⟨p, hp, hplt⟩
        obtain rfl : _ = p := Option.some.inj hp
        exact absurd hplt hlt
  · intro hp
    obtain heq : _ = (60 : ℚ) := Option.some.inj hp
    rw [heq, if_neg (by norm_num)]

/-- The concrete two-row, one-question table used by the C5 witness. -/
def wRows : List TRow := [⟨"a", [1]⟩, ⟨"b", [0]⟩]

/-- Witness for C5 on the concrete table `wRows`. -/
theorem c5_question_pass_rate_witness :
    (((question_stats [⟨"q1", "t", "e"⟩] ["q1"] wRows).getD 0 dummyQ).procent
        = some (round1
            (((wRows.filter fun r => decide (r.answers.getD 0 0 = 1)).length : ℚ)
              / wRows.length * 100)))
    ∧ (((question_stats [⟨"q1", "t", "e"⟩] ["q1"] wRows).getD 0 dummyQ).problemnoe = "Да"
        ↔ ∃ p, ((question_stats [⟨"q1", "t", "e"⟩] ["q1"] wRows).getD 0 dummyQ).procent
            = some p ∧ p < 60)
    ∧ (((question_stats [⟨"q1", "t", "e"⟩] ["q1"] wRows).getD 0 dummyQ).procent = some 60
        → ((question_stats [⟨"q1", "t", "e"⟩] ["q1"] wRows).getD 0 dummyQ).problemnoe
            = "Нет") := by
  have hbin : ∀ r ∈ wRows, ∀ a ∈ r.answers, a = 0 ∨ a = 1 := by
    intro r hr a ha
    fin_cases hr <;> fin_cases ha <;> norm_num
  exact c5_question_pass_rate [⟨"q1", "t", "e"⟩] ["q1"] wRows 0
    (by decide) (by simp [wRows]) hbin

/-- C6: the topic rollup of `analyze_test_results` assigns every topic the
unweighted arithmetic mean of its constituent questions' pass-rates,
rounded to 1 decimal place, and classifies the topic with the same
2-bucket threshold as individual questions: problematic exactly when the
topic mean is strictly below 60. -/
theorem c6_topic_rollup (qs : List QStat) (t : String) (ps : List ℚ)
    (hps : (qs.filter fun q => decide (q.tema = t)).map QStat.procent = ps.map some)
    (hne : ps ≠ []) :
    (topic_stat qs t) ∈ topic_stats qs
    ∧ (topic_stat qs t).tema = t
    ∧ (topic_stat qs t).procent = some (round1 (ps.sum / ps.length))
    ∧ ((topic_stat qs t).problemnaya = "Да" ↔ round1 (ps.sum / ps.length) < 60) := by
  have hfm : (qs.filter fun q => decide (q.tema = t)).filterMap QStat.procent = ps :=
    filterMap_of_map_eq_map_some QStat.procent _ ps hps
  have hmem : topic_stat qs t ∈ topic_stats qs := by
    have hfil : qs.filter (fun q => decide (q.tema = t)) ≠ [] := by
      intro h
      rw [h] at hps
      exact hne (List.map_eq_nil_iff.mp hps.symm)
    obtain ⟨q, hq⟩ := List.exists_mem_of_ne_nil _ hfil
    obtain ⟨hqm, hqd⟩ := List.mem_filter.mp hq
    have hqt : q.tema = t := of_decide_eq_true hqd
    exact List.mem_map.mpr ⟨t, List.mem_dedup.mpr (List.mem_map.mpr ⟨q, hqm, hqt⟩), rfl⟩
  have hpe : ps.isEmpty = false := by
    cases ps with
    | nil => exact absurd rfl hne
    | cons p l => rfl
  refine ⟨hmem, rfl, ?_, ?_⟩
  · unfold topic_stat
    simp only [hfm, hpe, if_false, Bool.false_eq_true, reduceIte]
    rfl
  · unfold topic_stat
    simp only [hfm, hpe, if_false, Bool.false_eq_true, reduceIte]
    constructor
    · intro hx
      split at hx
      · assumption
      · exact absurd hx (by decide)
    · intro hlt
      exact if_pos hlt

/-- Witness for C6 on a concrete two-question, one-topic statistics table. -/
theorem c6_topic_rollup_witness :
    (topic_stat [⟨"q1", "t", "e", 1, some 50, "Да"⟩, ⟨"q2", "t", "e", 1, some 70, "Нет"⟩] "t")
        ∈ topic_stats [⟨"q1", "t", "e", 1, some 50, "Да"⟩, ⟨"q2", "t", "e", 1, some 70, "Нет"⟩]
    ∧ (topic_stat [⟨"q1", "t", "e", 1, some 50, "Да"⟩, ⟨"q2", "t", "e", 1, some 70, "Нет"⟩] "t").tema = "t"
    ∧ (topic_stat [⟨"q1", "t", "e", 1, some 50, "Да"⟩, ⟨"q2", "t", "e", 1, some 70, "Нет"⟩] "t").procent
        = some (round1 (([50, 70] : List ℚ).sum / ([50, 70] : List ℚ).length))
    ∧ ((topic_stat [⟨"q1", "t", "e", 1, some 50, "Да"⟩, ⟨"q2", "t", "e", 1, some 70, "Нет"⟩] "t").problemnaya = "Да"
        ↔ round1 (([50, 70] : List ℚ).sum / ([50, 70] : List ℚ).length) < 60) :=
  c6_topic_rollup
    [⟨"q1", "t", "e", 1, some 50, "Да"⟩, ⟨"q2", "t", "e", 1, some 70, "Нет"⟩]
    "t" [50, 70] (by simp) (by simp)

theorem roundHalfEven_cases (q : ℚ) :
    roundHalfEven q = ⌊q⌋ ∨ roundHalfEven q = ⌊q⌋ + 1 := by
  unfold roundHalfEven
  split_ifs <;> simp

theorem le_roundHalfEven_of_int_le (k : ℤ) (q : ℚ) (h : (k : ℚ) ≤ q) :
    k ≤ roundHalfEven q := by
  have h1 : k ≤ ⌊q⌋ := Int.le_floor.mpr h
  rcases roundHalfEven_cases q with h2 | h2 <;> omega

theorem roundHalfEven_le_of_le_int (k : ℤ) (q : ℚ) (h : q ≤ (k : ℚ)) :
    roundHalfEven q ≤ k := by
  have hfl : ⌊q⌋ ≤ k := by
    have := Int.floor_le_floor h
    rwa [Int.floor_intCast] at this
  have hfr : (⌊q⌋ : ℚ) ≤ q := Int.floor_le q
  unfold roundHalfEven
  split_ifs with h1 h2 h3
  · exact hfl
  · have hlt : (⌊q⌋ : ℚ) < (k : ℚ) := by linarith
    have := Int.cast_lt.mp hlt
    omega
  · exact hfl
  · have hlt : (⌊q⌋ : ℚ) < (k : ℚ) := by linarith
    have := Int.cast_lt.mp hlt
    omega

theorem round2_le_of_le (k : ℤ) (q : ℚ) (h : q ≤ (k : ℚ) / 100) :
    round2 q ≤ (k : ℚ) / 100 := by
  unfold round2
  have h1 : q * 100 ≤ (k : ℚ) := by linarith
  have h2 := roundHalfEven_le_of_le_int k (q * 100) h1
  have h3 : ((roundHalfEven (q * 100) : ℤ) : ℚ) ≤ (k : ℚ) := Int.cast_le.mpr h2
  linarith

theorem le_round2_of_le (k : ℤ) (q : ℚ) (h : (k : ℚ) / 100 ≤ q) :
    (k : ℚ) / 100 ≤ round2 q := by
  unfold round2
  have h1 : (k : ℚ) ≤ q * 100 := by linarith
  have h2 := le_roundHalfEven_of_int_le k (q * 100) h1
  have h3 : (k : ℚ) ≤ ((roundHalfEven (q * 100) : ℤ) : ℚ) := Int.cast_le.mpr h2
  linarith

theorem mean_mem_bounds (xs : List ℚ) (m M : ℚ) (hne : xs ≠ [])
    (hm : ∀ x ∈ xs, m ≤ x) (hM : ∀ x ∈ xs, x ≤ M) :
    m ≤ mean xs ∧ mean xs ≤ M := by
  have hlen : 0 < (xs.length : ℚ) := by
    exact_mod_cast List.length_pos.mpr hne
  have hsum₁ : (xs.length : ℚ) * m ≤ xs.sum := by
    have := List.card_nsmul_le_sum xs m hm
    rwa [nsmul_eq_mul] at this
  have hsum₂ : xs.sum ≤ (xs.length : ℚ) * M := by
    have := List.sum_le_card_nsmul xs M hM
    rwa [nsmul_eq_mul] at this
  unfold mean
  constructor
  · rw [le_div_iff₀ hlen]
    linarith
  · rw [div_le_iff₀ hlen]
    linarith

instance : Std.Antisymm ((· : ℚ) ≤ ·) := ⟨@fun a b h₁ h₂ => le_antisymm h₁ h₂⟩

theorem min?_spec (xs : List ℚ) (m : ℚ) (h : xs.min? = some m) :
    m ∈ xs ∧ ∀ x ∈ xs, m ≤ x := by
  have := (List.min?_eq_some_iff (fun a => le_refl a) (fun a b => min_choice a b)
    (fun a b c => le_min_iff)).mp h
  exact ⟨this.1, fun x hx => this.2 x hx⟩

theorem max?_spec (xs : List ℚ) (M : ℚ) (h : xs.max? = some M) :
    M ∈ xs ∧ ∀ x ∈ xs, x ≤ M := by
  have := (List.max?_eq_some_iff (fun a => le_refl a) (fun a b => max_choice a b)
    (fun a b c => max_le_iff)).mp h
  exact ⟨this.1, fun x hx => this.2 x hx⟩

/-- C8 counterexample: the claim fails as stated once a score has more
than two decimal places.  On the one-row table whose single value is
`0.333` the derived mean `Средний_балл` is `round2 0.333 = 0.33`, which
lies strictly below the row minimum `0.333`. -/
theorem c8_counterexample :
    (([(333 : ℚ)/1000] : List ℚ).min? = some (333/1000))
    ∧ ((calculate_statistics [⟨"u", [333/1000]⟩]).getD 0 dummyA).avg = 33/100
    ∧ ¬ ((333 : ℚ)/1000
          ≤ ((calculate_statistics [⟨"u", [333/1000]⟩]).getD 0 dummyA).avg) := by
  have havg : ((calculate_statistics [⟨"u", [333/1000]⟩]).getD 0 dummyA).avg = 33/100 := by
    rw [calculate_statistics_getD [⟨"u", [333/1000]⟩] 0 (by decide)]
    norm_num [dummyR, mean, round2, roundHalfEven]
  refine ⟨rfl, havg, ?_⟩
  rw [havg]
  norm_num

/-- C8 amended: for every row all of whose values are integer multiples of
`0.01` (integer grades in particular), the derived mean `Средний_балл` —
the arithmetic mean of the row's values rounded to 2 decimal places — lies
within the closed interval from the row minimum to the row maximum.
(Without the multiple-of-`0.01` restriction the rounding step can move the
derived mean outside the interval by up to `0.005`.) -/
theorem c8_rounded_mean_bounds (df : List Row) (i : ℕ) (h : i < df.length)
    (hgrid : ∀ x ∈ (df.getD i dummyR).scores, ∃ k : ℤ, x = (k : ℚ) / 100)
    (m M : ℚ)
    (hm : (df.getD i dummyR).scores.min? = some m)
    (hM : (df.getD i dummyR).scores.max? = some M) :
    m ≤ ((calculate_statistics df).getD i dummyA).avg
    ∧ ((calculate_statistics df).getD i dummyA).avg ≤ M := by
  rw [calculate_statistics_getD df i h]
  obtain ⟨hmm, hml⟩ := min?_spec _ m hm
  obtain ⟨hMm, hMl⟩ := max?_spec _ M hM
  have hne : (df.getD i dummyR).scores ≠ [] := List.ne_nil_of_mem hmm
  obtain ⟨km, hkm⟩ := hgrid m hmm
  obtain ⟨kM, hkM⟩ := hgrid M hMm
  obtain ⟨h₁, h₂⟩ := mean_mem_bounds _ m M hne hml hMl
  constructor
  · rw [hkm] at h₁ ⊢
    exact le_round2_of_le km _ h₁
  · rw [hkM] at h₂ ⊢
    exact round2_le_of_le kM _ h₂

/-- Witness for the amended C8 on the concrete row `[4, 5, 3]`. -/
theorem c8_rounded_mean_bounds_witness :
    (3 : ℚ) ≤ ((calculate_statistics [⟨"u", [4, 5, 3]⟩]).getD 0 dummyA).avg
    ∧ ((calculate_statistics [⟨"u", [4, 5, 3]⟩]).getD 0 dummyA).avg ≤ 5 := by
  have hgrid : ∀ x ∈ (([⟨"u", [4, 5, 3]⟩] : List Row).getD 0 dummyR).scores,
      ∃ k : ℤ, x = (k : ℚ) / 100 := by
    intro x hx
    fin_cases hx
    · exact ⟨400, by norm_num⟩
    · exact ⟨500, by norm_num⟩
    · exact ⟨300, by norm_num⟩
  exact c8_rounded_mean_bounds [⟨"u", [4, 5, 3]⟩] 0 (by decide) hgrid 3 5 rfl rfl

/-- The two tied rows of the C2 divergence table: equal derived mean,
distinct students. -/
def tieA : ARow := ⟨"Ученик_1", [4], 4, "Хорошист"⟩

/-- Second tied row, see `tieA`. -/
def tieB : ARow := ⟨"Ученик_2", [4], 4, "Хорошист"⟩

/-- C2 (code bug): the source sorts with `sort_values`' default
`kind='quicksort'`, which guarantees no order on equal keys, while the
claim (and the spec's "stable sort required") demand that rows with equal
`Средний_балл` keep their original table order.  On the all-tied table
`[tieA, tieB]` the call's contract `sortValuesDesc` admits the reversed
arrangement as well as the original one, and taking the head of the
reversed arrangement yields a top-`n` result different from the one the
claim requires: the code's contract does not determine the stable output
the claim asserts. -/
theorem c2_unstable_kind_divergence :
    sortValuesDesc [tieA, tieB] [tieB, tieA]
    ∧ sortValuesDesc [tieA, tieB] [tieA, tieB]
    ∧ [tieB, tieA].take 2 ≠ [tieA, tieB].take 2 := by
  refine ⟨⟨List.Perm.swap tieA tieB [], ?_⟩, ⟨List.Perm.refl _, ?_⟩, ?_⟩
  · exact List.pairwise_pair.mpr (le_refl (4 : ℚ))
  · exact List.pairwise_pair.mpr (le_refl (4 : ℚ))
  · intro h
    have : tieB = tieA := by
      have h0 := congrArg (fun l => l.getD 0 dummyA) h
      simpa [tieA, tieB] using h0
    simp [tieA, tieB] at this

theorem subject_stats_getD (adf : List ARow) (ncols j : ℕ) (hj : j < ncols) :
    (subject_stats adf ncols).getD j ⟨none, none, none⟩
      = ⟨(omean (column adf j)).map round2, (column adf j).min?, (column adf j).max?⟩ := by
  unfold subject_stats
  rw [List.getD_eq_getElem?_getD, List.getElem?_map, List.getElem?_range hj]
  rfl

theorem omean_of_ne_nil (xs : List ℚ) (h : xs ≠ []) : omean xs = some (mean xs) := by
  unfold omean
  rw [if_neg (by simpa using h)]

theorem min?_isSome_of_ne_nil (xs : List ℚ) (h : xs ≠ []) : ∃ m, xs.min? = some m := by
  cases xs with
  | nil => exact absurd rfl h
  | cons a l => exact ⟨_, rfl⟩

theorem max?_isSome_of_ne_nil (xs : List ℚ) (h : xs ≠ []) : ∃ m, xs.max? = some m := by
  cases xs with
  | nil => exact absurd rfl h
  | cons a l => exact ⟨_, rfl⟩

theorem column_ne_nil (adf : List ARow) (j : ℕ) (h : adf ≠ []) : column adf j ≠ [] := by
  unfold column
  simpa using h

/-- C4: on a non-empty table `get_class_statistics` reports, per subject
column, the column mean rounded to 2 decimal places together with the
column's exact minimum and maximum, and class-wide aggregates computed over
the row-level derived means: their mean rounded to 2 decimals, their median
(middle of a sorted rearrangement; mean of the two middles for an even row
count) rounded to 2 decimals, their exact minimum and maximum, and — as
soon as at least two rows exist — a standard deviation following the
sample (n-1) definition, rounded to 2 decimals. -/
theorem c4_class_statistics (adf : List ARow) (ncols : ℕ) (h : adf ≠ []) :
    ((get_class_statistics adf).total_students = adf.length)
    ∧ ((get_class_statistics adf).class_average
        = some (round2 ((avgs adf).sum / (avgs adf).length)))
    ∧ (∃ s : List ℚ, s.Perm (avgs adf) ∧ s.Sorted (· ≤ ·)
        ∧ (get_class_statistics adf).class_median
          = some (round2
              (if (avgs adf).length % 2 = 1 then s.getD ((avgs adf).length / 2) 0
               else (s.getD ((avgs adf).length / 2 - 1) 0
                  + s.getD ((avgs adf).length / 2) 0) / 2)))
    ∧ (∃ m, (get_class_statistics adf).class_min = some m
        ∧ m ∈ avgs adf ∧ ∀ x ∈ avgs adf, m ≤ x)
    ∧ (∃ M, (get_class_statistics adf).class_max = some M
        ∧ M ∈ avgs adf ∧ ∀ x ∈ avgs adf, x ≤ M)
    ∧ (2 ≤ adf.length → ∃ s : ℝ, 0 ≤ s
        ∧ s ^ 2 = ((((avgs adf).map
              (fun x => (x - (avgs adf).sum / (avgs adf).length) ^ 2)).sum : ℚ) : ℝ)
            / ((adf.length : ℝ) - 1)
        ∧ class_std (avgs adf) = some (round2R s))
    ∧ (∀ j, j < ncols →
        (((subject_stats adf ncols).getD j ⟨none, none, none⟩).smean
            = some (round2 ((column adf j).sum / (column adf j).length)))
        ∧ (∃ m, ((subject_stats adf ncols).getD j ⟨none, none, none⟩).smin = some m
            ∧ m ∈ column adf j ∧ ∀ x ∈ column adf j, m ≤ x)
        ∧ (∃ M, ((subject_stats adf ncols).getD j ⟨none, none, none⟩).smax = some M
            ∧ M ∈ column adf j ∧ ∀ x ∈ column adf j, x ≤ M)) := by
  have havne : avgs adf ≠ [] := by
    unfold avgs
    simpa using h
  refine ⟨rfl, ?_, ?_, ?_, ?_, ?_, ?_⟩
  · show (omean (avgs adf)).map round2 = _
    rw [omean_of_ne_nil _ havne]
    rfl
  · refine ⟨List.insertionSort (· ≤ ·) (avgs adf),
      List.perm_insertionSort _ _, List.sorted_insertionSort _ _, ?_⟩
    show (omedian (avgs adf)).map round2 = _
    unfold omedian
    rw [if_neg (by simpa using havne)]
    split_ifs with hpar <;> simp [hpar]
  · obtain ⟨m, hm⟩ := min?_isSome_of_ne_nil _ havne
    obtain ⟨hmm, hml⟩ := min?_spec _ m hm
    exact ⟨m, hm, hmm, hml⟩
  · obtain ⟨M, hM⟩ := max?_isSome_of_ne_nil _ havne
    obtain ⟨hMm, hMl⟩ := max?_spec _ M hM
    exact ⟨M, hM, hMm, hMl⟩
  · intro h2
    have hlen : (avgs adf).length = adf.length := List.length_map adf ARow.avg
    have harg : (0 : ℝ) ≤ ((sqDevSum (avgs adf) : ℚ) : ℝ) / ((adf.length : ℝ) - 1) := by
      apply div_nonneg
      · have hnum : (0 : ℚ) ≤ sqDevSum (avgs adf) := by
          unfold sqDevSum
          apply List.sum_nonneg
          intro x hx
          obtain ⟨y, _, rfl⟩ := List.mem_map.mp hx
          positivity
        exact_mod_cast hnum
      · have : (2 : ℝ) ≤ (adf.length : ℝ) := by exact_mod_cast h2
        linarith
    refine ⟨Real.sqrt ((sqDevSum (avgs adf) : ℚ) / ((adf.length : ℝ) - 1)), Real.sqrt_nonneg _, ?_, ?_⟩
    · rw [Real.sq_sqrt harg]
      rfl
    · unfold class_std
      rw [if_neg (by omega : ¬ (avgs adf).length ≤ 1), hlen]
  · intro j hj
    rw [subject_stats_getD adf ncols j hj]
    have hcne := column_ne_nil adf j h
    refine ⟨?_, ?_, ?_⟩
    · show (omean (column adf j)).map round2 = _
      rw [omean_of_ne_nil _ hcne]
      rfl
    · obtain ⟨m, hm⟩ := min?_isSome_of_ne_nil _ hcne
      obtain ⟨hmm, hml⟩ := min?_spec _ m hm
      exact ⟨m, hm, hmm, hml⟩
    · obtain ⟨M, hM⟩ := max?_isSome_of_ne_nil _ hcne
      obtain ⟨hMm, hMl⟩ := max?_spec _ M hM
      exact ⟨M, hM, hMm, hMl⟩

/-- Concrete one-row table for the C4 witness. -/
def wAdf : List ARow := [⟨"a", [4], 4, "Хорошист"⟩]

/-- Witness for C4 on the concrete table `wAdf`. -/
theorem c4_class_statistics_witness :
    wAdf ≠ []
    ∧ (((get_class_statistics wAdf).total_students = wAdf.length)
    ∧ ((get_class_statistics wAdf).class_average
        = some (round2 ((avgs wAdf).sum / (avgs wAdf).length)))
    ∧ (∃ s : List ℚ, s.Perm (avgs wAdf) ∧ s.Sorted (· ≤ ·)
        ∧ (get_class_statistics wAdf).class_median
          = some (round2
              (if (avgs wAdf).length % 2 = 1 then s.getD ((avgs wAdf).length / 2) 0
               else (s.getD ((avgs wAdf).length / 2 - 1) 0
                  + s.getD ((avgs wAdf).length / 2) 0) / 2)))
    ∧ (∃ m, (get_class_statistics wAdf).class_min = some m
        ∧ m ∈ avgs wAdf ∧ ∀ x ∈ avgs wAdf, m ≤ x)
    ∧ (∃ M, (get_class_statistics wAdf).class_max = some M
        ∧ M ∈ avgs wAdf ∧ ∀ x ∈ avgs wAdf, x ≤ M)
    ∧ (2 ≤ wAdf.length → ∃ s : ℝ, 0 ≤ s
        ∧ s ^ 2 = ((((avgs wAdf).map
              (fun x => (x - (avgs wAdf).sum / (avgs wAdf).length) ^ 2)).sum : ℚ) : ℝ)
            / ((wAdf.length : ℝ) - 1)
        ∧ class_std (avgs wAdf) = some (round2R s))
    ∧ (∀ j, j < 1 →
        (((subject_stats wAdf 1).getD j ⟨none, none, none⟩).smean
            = some (round2 ((column wAdf j).sum / (column wAdf j).length)))
        ∧ (∃ m, ((subject_stats wAdf 1).getD j ⟨none, none, none⟩).smin = some m
            ∧ m ∈ column wAdf j ∧ ∀ x ∈ column wAdf j, m ≤ x)
        ∧ (∃ M, ((subject_stats wAdf 1).getD j ⟨none, none, none⟩).smax = some M
            ∧ M ∈ column wAdf j ∧ ∀ x ∈ column wAdf j, x ≤ M))) :=
  ⟨by simp [wAdf], c4_class_statistics wAdf 1 (by simp [wAdf])⟩

/-- C10: the four status counts reported by `get_class_statistics` on the
output of `calculate_statistics` partition the class — their sum equals
`total_students`, because every row receives exactly one of the four
status labels. -/
theorem c10_status_counts_partition (df : List Row) :
    (get_class_statistics (calculate_statistics df)).excellent
    + (get_class_statistics (calculate_statistics df)).good
    + (get_class_statistics (calculate_statistics df)).satisfactory
    + (get_class_statistics (calculate_statistics df)).attention_needed
    = (get_class_statistics (calculate_statistics df)).total_students := by
  have hst : ∀ r ∈ calculate_statistics df,
      r.status = "Отличник" ∨ r.status = "Хорошист"
      ∨ r.status = "Троечник" ∨ r.status = "Требует внимания" := by
    intro r hr
    unfold calculate_statistics at hr
    obtain ⟨x, _, rfl⟩ := List.mem_map.mp hr
    exact get_status_mem _
  exact counts_partition (calculate_statistics df) hst

end EduProj
